import Mathlib

/-!
Verification development for the nigerian-history-ai repository.

This file shallowly embeds the client-side query pipeline of the
repository:

* the streaming API consumer `askQuestionStream` and the non-streaming
  `askQuestion` from the frontend API library;
* the chat hook `useChat` in both its streaming and non-streaming
  variants (`sendMessage`);
* the request configurations of the two axios clients and of the
  streaming fetch call.

JavaScript strings are modelled as Lean `String`; the JavaScript string
operations used by the source (`trim`, `startsWith`, `substring`,
`split`) are modelled by structurally recursive functions over the
underlying character list so that every definition evaluates inside the
kernel.  `JSON.parse` is an external capability of the JavaScript
runtime; it is modelled as an explicit parameter
`parse : String → Option StreamResponsePart` (returning `none` where
`JSON.parse` would throw).  Timestamps carry no information relevant to
any property proved here and are omitted from the message model.
-/

/-! ## JavaScript string primitives -/

/-- Model of JavaScript `String.prototype.trim`: removes leading and
trailing whitespace. -/
def jsTrim (s : String) : String :=
  ⟨((s.data.dropWhile Char.isWhitespace).reverse.dropWhile Char.isWhitespace).reverse⟩

/-- Model of JavaScript `s.startsWith(p)`. -/
def jsStartsWith (s p : String) : Bool :=
  p.data.isPrefixOf s.data

/-- Model of JavaScript `s.substring(n)`: drop the first `n` characters. -/
def jsSubstringFrom (s : String) (n : Nat) : String :=
  ⟨s.data.drop n⟩

/-- Helper for `jsSplitNewline`: splits a character list at every
newline character, accumulating the current (reversed) segment. -/
def jsSplitNewlineAux : List Char → List Char → List String
  | [], acc => [⟨acc.reverse⟩]
  | c :: cs, acc =>
    if c = '\n' then ⟨acc.reverse⟩ :: jsSplitNewlineAux cs []
    else jsSplitNewlineAux cs (c :: acc)

/-- Model of JavaScript `s.split('\n')` as used on each decoded chunk. -/
def jsSplitNewline (s : String) : List String :=
  jsSplitNewlineAux s.data []

/-! ## Streaming protocol data model (lib/api.ts, streaming variant)

The three event interfaces `StreamMetadata`, `StreamChunk`, `StreamEnd`
and the union `StreamResponsePart` are transcribed from the source. -/

structure StreamMetadata where
  sources : List String
  relevant_chunks_found : Int
  context_chunks_used : Int
  deriving DecidableEq, Repr

structure StreamChunk where
  content : String
  deriving DecidableEq, Repr

structure StreamEnd where
  full_answer : String
  timestamp : String
  generation_time : String
  deriving DecidableEq, Repr

/-- The union type of parsed stream events.  The source's `end` variant
is named `endEv` because `end` is a Lean keyword. -/
inductive StreamResponsePart where
  | metadata (m : StreamMetadata)
  | chunk (c : StreamChunk)
  | endEv (e : StreamEnd)
  deriving DecidableEq, Repr

/-- One observable callback invocation made by `askQuestionStream`:
`onStreamUpdate`, `onStreamEnd` or `onError`. -/
inductive CallbackCall where
  | streamUpdate (content : String) (sources : List String)
  | streamEnd (fullAnswer : String)
  | error (msg : String)
  deriving DecidableEq, Repr

/-- The local mutable state of the read loop of `askQuestionStream`:
`accumulatedContent` and `sources`, initialised to `""` and `[]`. -/
structure StreamState where
  accumulatedContent : String
  sources : List String
  deriving DecidableEq, Repr

/-- Result of handling one parsed event in the loop body: either
continue with an updated state, or stop (the `end` branch `return`s from
the whole function). -/
inductive StepResult where
  | next (st : StreamState) (calls : List CallbackCall)
  | stop (calls : List CallbackCall)
  deriving DecidableEq, Repr

/-- The `if parsed.type == ...` dispatch of the loop body of
`askQuestionStream`:

* metadata: `sources = parsed.sources; onStreamUpdate(accumulatedContent, sources)`;
* chunk: `accumulatedContent += parsed.content; onStreamUpdate(accumulatedContent, sources)`;
* end: `onStreamEnd(parsed.full_answer); return`. -/
def handleParsed (st : StreamState) : StreamResponsePart → StepResult
  | .metadata m =>
    .next { st with sources := m.sources }
      [.streamUpdate st.accumulatedContent m.sources]
  | .chunk c =>
    .next { st with accumulatedContent := st.accumulatedContent ++ c.content }
      [.streamUpdate (st.accumulatedContent ++ c.content) st.sources]
  | .endEv e => .stop [.streamEnd e.full_answer]

/-- `jsonLine`: the line with an optional leading `data: ` prefix
removed (`line.startsWith('data: ') ? line.substring(6) : line`). -/
def stripDataTag (line : String) : String :=
  if jsStartsWith line "data: " then jsSubstringFrom line 6 else line

/-- The effective parse of one received line: strip the `data: ` tag;
a line whose remainder trims to empty is skipped (`continue`), and a
line on which `JSON.parse` throws is skipped (the `catch` only logs).
Both skips are represented by `none`. -/
def parseEffect (parse : String → Option StreamResponsePart) (line : String) :
    Option StreamResponsePart :=
  let jsonLine := stripDataTag line
  if jsTrim jsonLine = "" then none else parse jsonLine

/-- The line loop of `askQuestionStream` over the full sequence of
received lines.  Returns the final loop state, the list of callback
invocations in order, and whether an `end` event was handled (in the
source, handling `end` returns from the function, so no later line is
processed). -/
def processLines (parse : String → Option StreamResponsePart) :
    List String → StreamState → StreamState × List CallbackCall × Bool
  | [], st => (st, [], false)
  | line :: rest, st =>
    match parseEffect parse line with
    | none => processLines parse rest st
    | some p =>
      match handleParsed st p with
      | .next st' calls =>
        let r := processLines parse rest st'
        (r.1, calls ++ r.2.1, r.2.2)
      | .stop calls => (st, calls, true)

/-- The sequence of events actually dispatched by the loop, before the
short-circuit at `end`: skipped lines (empty after the tag, or failing
`JSON.parse`) contribute nothing. -/
def effectiveEvents (parse : String → Option StreamResponsePart)
    (lines : List String) : List StreamResponsePart :=
  lines.filterMap (parseEffect parse)

/-- The event dispatch loop on already-parsed events; `processLines`
equals this composed with `effectiveEvents` (lemma below). -/
def handleEvents : List StreamResponsePart → StreamState →
    StreamState × List CallbackCall × Bool
  | [], st => (st, [], false)
  | e :: rest, st =>
    match handleParsed st e with
    | .next st' calls =>
      let r := handleEvents rest st'
      (r.1, calls ++ r.2.1, r.2.2)
    | .stop calls => (st, calls, true)

/-- Per decoded chunk the source does
`chunk.split('\n').filter(line => line.trim() !== '')`; the loop then
runs over the lines of each chunk in order. -/
def splitLines (chunks : List String) : List String :=
  (chunks.map (fun c => (jsSplitNewline c).filter (fun l => jsTrim l ≠ ""))).flatten

/-- The possible outcomes of the `fetch` call and of reading the
response body, as distinguished by the source:

* `fetchReject msg`: the `fetch` promise rejects (network error);
* `httpError msg`: `response.ok` is false; the source throws
  `errorData.error || 'HTTP error! status: ...'`, carried here already
  composed as `msg`;
* `noBody`: `response.body` is undefined, so no reader is obtained;
* `ok chunks`: the body is read to exhaustion, delivering the decoded
  text chunks in order;
* `okThenThrow chunks msg`: reading throws with message `msg` after
  delivering `chunks`. -/
inductive FetchOutcome where
  | fetchReject (msg : String)
  | httpError (msg : String)
  | noBody
  | ok (chunks : List String)
  | okThenThrow (chunks : List String) (msg : String)
  deriving DecidableEq, Repr

/-- The outer catch invokes
`onError(error.message || 'Network error during streaming.')`; an empty
message is falsy in JavaScript and replaced by the fallback. -/
def orNetworkFallback (msg : String) : String :=
  if msg = "" then "Network error during streaming." else msg

/-- `askQuestionStream` as a function from the fetch outcome to the
ordered list of callback invocations it performs.  All thrown errors
funnel into the single outer `catch`, which calls `onError` once; if an
`end` event was handled the function has already returned, so a later
read failure is never observed. -/
def askQuestionStream (parse : String → Option StreamResponsePart) :
    FetchOutcome → List CallbackCall
  | .fetchReject msg => [.error (orNetworkFallback msg)]
  | .httpError msg => [.error (orNetworkFallback msg)]
  | .noBody => [.error (orNetworkFallback "Failed to get readable stream from response.")]
  | .ok chunks => (processLines parse (splitLines chunks) ⟨"", []⟩).2.1
  | .okThenThrow chunks msg =>
    let r := processLines parse (splitLines chunks) ⟨"", []⟩
    if r.2.2 then r.2.1 else r.2.1 ++ [.error (orNetworkFallback msg)]

/-- True for the two terminal callbacks `onStreamEnd` and `onError`. -/
def isTerminal : CallbackCall → Bool
  | .streamUpdate _ _ => false
  | .streamEnd _ => true
  | .error _ => true

/-- True exactly for `onError` invocations. -/
def isErrorCall : CallbackCall → Bool
  | .error _ => true
  | _ => false

/-- True exactly for `onStreamUpdate` invocations. -/
def isUpdateCall : CallbackCall → Bool
  | .streamUpdate _ _ => true
  | _ => false

/-- Modelled from the spec: the backend Generation Orchestrator (its
Python implementation is not under src/) emits, for a successful query,
exactly one metadata event, then zero or more chunk events in
generation order, then one end event. -/
def wellFormedEvents (m : StreamMetadata) (cs : List StreamChunk)
    (e : StreamEnd) : List StreamResponsePart :=
  .metadata m :: (cs.map .chunk ++ [.endEv e])

/-- In-order concatenation of the `content` fields of chunk events. -/
def chunkConcat : List StreamChunk → String
  | [] => ""
  | c :: cs => c.content ++ chunkConcat cs

/-- The chunk events among a list of events. -/
def chunksOf (events : List StreamResponsePart) : List StreamChunk :=
  events.filterMap (fun e => match e with | .chunk c => some c | _ => none)

/-- The trace of `onStreamUpdate` calls produced by a run of chunk
events from accumulated content `acc` with current sources `srcs`. -/
def updateTrace (acc : String) (srcs : List String) :
    List StreamChunk → List CallbackCall
  | [] => []
  | c :: cs =>
    .streamUpdate (acc ++ c.content) srcs :: updateTrace (acc ++ c.content) srcs cs

/-- A concrete stand-in for `JSON.parse` on a fixed vocabulary of lines,
used to instantiate the parse parameter in closed statements. -/
def demoParse : String → Option StreamResponsePart
  | "M" => some (.metadata ⟨["u1", "u2"], 2, 1⟩)
  | "A" => some (.chunk ⟨"Nigeria "⟩)
  | "B" => some (.chunk ⟨"gained independence in 1960."⟩)
  | "E" => some (.endEv ⟨"Nigeria gained independence in 1960.", "t0", "1.2s"⟩)
  | _ => none

/-! ## Chat data model (types/index.ts) -/

inductive MessageType where
  | user
  | assistant
  deriving DecidableEq, Repr

/-- The `Message` interface of types/index.ts.  The `timestamp: Date`
field carries no information used by any property below and is omitted;
optional fields are `Option`s defaulting to `none` (absent). -/
structure Message where
  id : String
  type : MessageType
  content : String
  sources : Option (List String) := none
  isLoading : Option Bool := none
  error : Option String := none
  deriving DecidableEq, Repr

/-- The `QuestionResponse` interface of types/index.ts (the
non-streaming `/ask` response shape). -/
structure QuestionResponse where
  question : String
  answer : String
  sources : List String
  relevant_chunks_found : Int
  context_chunks_used : Int
  timestamp : String
  response_time_ms : Int
  deriving DecidableEq, Repr

/-- `askQuestion` posts to `/ask` and returns `response.data`; its
`try`/`catch` rethrows unchanged.  The axios outcome (the parsed
response data or the interceptor-produced error message) is the
argument. -/
def askQuestion (outcome : Except String QuestionResponse) :
    Except String QuestionResponse :=
  match outcome with
  | .ok d => .ok d
  | .error e => .error e

/-! ## The chat hook (hooks/useChat.ts, streaming and non-streaming)

The hook state is `messages`, `isLoading` and `apiError`
(`isInitialized` and the welcome-message effect are not touched by
`sendMessage` and are omitted). -/

structure ChatState where
  messages : List Message
  isLoading : Bool
  apiError : Option String
  deriving DecidableEq, Repr

/-- The repeated `prevMessages.map(msg => msg.id === assistantMessageId
? ... : msg)` pattern of both hook variants. -/
def mapById (aid : String) (g : Message → Message)
    (msgs : List Message) : List Message :=
  msgs.map (fun m => if m.id = aid then g m else m)

/-- The user message constructed by `sendMessage` (both variants build
the same fields apart from the timestamp). -/
def userMessageOf (uid question : String) : Message :=
  { id := uid, type := .user, content := question }

/-- The placeholder assistant message of the streaming `sendMessage`
(note the leading space in the content and the `sources: []`). -/
def streamingLoadingMessage (aid : String) : Message :=
  { id := aid, type := .assistant, content := " Let me think about that...",
    isLoading := some true, sources := some [] }

/-- The placeholder assistant message of the non-streaming
`sendMessage` (no leading space, no `sources` field). -/
def nonStreamingLoadingMessage (aid : String) : Message :=
  { id := aid, type := .assistant, content := "Let me think about that...",
    isLoading := some true }

/-- The fixed error content shown by the streaming hook `onError`. -/
def streamErrorNotice : String :=
  "Sorry, I encountered an error during streaming. Please try again."

/-- The fixed error content shown by the non-streaming hook on a
rejected `askQuestion`. -/
def nonStreamErrorNotice : String :=
  "Sorry, I encountered an error while processing your question. Please try again."

/-- The streaming hook `onStreamUpdate`: rewrites the assistant
message's `content` and sets `isLoading: true`.  The source also writes
a `source: newSources` key, which is not a declared field of `Message`
(`sources` is); the declared `sources` field is therefore left
unchanged by this callback. -/
def onStreamUpdateStep (aid newContent : String) (st : ChatState) : ChatState :=
  { st with
    messages := mapById aid
      (fun m => { m with content := newContent, isLoading := some true })
      st.messages }

/-- The streaming hook `onStreamEnd`: rewrites the assistant message
with the full answer and the `receivedSources` captured so far, and
clears `isLoading`. -/
def onStreamEndStep (aid fullAnswer : String) (recv : List String)
    (st : ChatState) : ChatState :=
  { st with
    messages := mapById aid
      (fun m => { m with content := fullAnswer, sources := some recv,
                         isLoading := some false })
      st.messages,
    isLoading := false }

/-- The streaming hook `onError`: rewrites the assistant message with
the fixed error notice, records the error, and clears `isLoading`. -/
def onErrorStep (aid errorMsg : String) (st : ChatState) : ChatState :=
  { st with
    messages := mapById aid
      (fun m => { m with content := streamErrorNotice,
                         isLoading := some false, error := some errorMsg })
      st.messages,
    apiError := some errorMsg,
    isLoading := false }

/-- Replays the callback invocations of one `askQuestionStream` run
against the hook state.  The third argument is the hook-local
`receivedSources` variable, updated by each `onStreamUpdate`. -/
def runStreamCallbacks (aid : String) :
    List CallbackCall → ChatState → List String → ChatState
  | [], st, _ => st
  | .streamUpdate c s :: rest, st, _ =>
    runStreamCallbacks aid rest (onStreamUpdateStep aid c st) s
  | .streamEnd fa :: rest, st, recv =>
    runStreamCallbacks aid rest (onStreamEndStep aid fa recv st) recv
  | .error e :: rest, st, recv =>
    runStreamCallbacks aid rest (onErrorStep aid e st) recv

/-- The value held by the hook-local `receivedSources` variable after a
list of callback invocations: the `sources` argument of the last
`onStreamUpdate` seen, or the initial value if none occurred. -/
def finalRecv (recv : List String) : List CallbackCall → List String
  | [] => recv
  | .streamUpdate _ s :: rest => finalRecv s rest
  | _ :: rest => finalRecv recv rest

/-- The streaming `sendMessage`: returns unchanged while `isLoading`;
otherwise appends the user and placeholder messages, enters the loading
state, clears `apiError`, and consumes the stream through the three
callbacks.  `uid` and `aid` stand for the `Date.now()`-derived message
ids. -/
def sendMessageStreaming (parse : String → Option StreamResponsePart)
    (outcome : FetchOutcome) (question uid aid : String)
    (st : ChatState) : ChatState :=
  if st.isLoading then st
  else
    let st1 : ChatState :=
      { messages := st.messages ++ [userMessageOf uid question, streamingLoadingMessage aid],
        isLoading := true, apiError := none }
    runStreamCallbacks aid (askQuestionStream parse outcome) st1 []

/-- The non-streaming `sendMessage`: returns unchanged while
`isLoading`; otherwise appends the user and placeholder messages, calls
`askQuestion`, and rewrites the placeholder with the answer and sources
on success or the fixed error notice on failure (`finally` clears
`isLoading` in both branches). -/
def sendMessageNonStreaming (outcome : Except String QuestionResponse)
    (question uid aid : String) (st : ChatState) : ChatState :=
  if st.isLoading then st
  else
    let st1 : ChatState :=
      { messages := st.messages ++ [userMessageOf uid question, nonStreamingLoadingMessage aid],
        isLoading := true, apiError := none }
    match askQuestion outcome with
    | .ok r =>
      { st1 with
        messages := mapById aid
          (fun m => { m with content := r.answer, sources := some r.sources,
                             isLoading := some false })
          st1.messages,
        isLoading := false }
    | .error e =>
      { st1 with
        messages := mapById aid
          (fun m => { m with content := nonStreamErrorNotice,
                             isLoading := some false, error := some e })
          st1.messages,
        apiError := some e,
        isLoading := false }

/-- Looks up the assistant message produced for one `sendMessage` call. -/
def findMessage (aid : String) (st : ChatState) : Option Message :=
  st.messages.find? (fun m => m.id == aid)

/-! ## Request configurations (lib/api.ts)

Only the configuration facts relevant to the timeout property are
modelled: the timeout (in milliseconds) and the JSON content-type
header. -/

structure AxiosCreateConfig where
  timeout : Option Nat
  contentTypeJson : Bool
  deriving DecidableEq, Repr

/-- The axios instance of the non-streaming API file:
`axios.create` with `timeout: 345000` and a JSON content-type header. -/
def apiClient : AxiosCreateConfig :=
  { timeout := some 345000, contentTypeJson := true }

/-- The axios instance of the streaming API file: `axios.create` with
`timeout: 10000` (used by `checkHealth` and `submitFeedback`, not by
`askQuestionStream`). -/
def axiosApi : AxiosCreateConfig :=
  { timeout := some 10000, contentTypeJson := false }

/-- The `RequestInit` of the `fetch` call inside `askQuestionStream`:
method POST, JSON content type.  The Fetch API has no timeout option
and the source installs no `AbortController` or signal, so no
client-side wall-clock bound applies to this request; this absence is
recorded as `timeout := none`. -/
structure FetchInit where
  method : String
  contentTypeJson : Bool
  timeout : Option Nat
  deriving DecidableEq, Repr

def askStreamFetchInit : FetchInit :=
  { method := "POST", contentTypeJson := true, timeout := none }

example :
    (sendMessageStreaming demoParse (.ok ["M\nA", "B\nE"]) "q" "u1" "a1"
      ⟨[], false, none⟩).messages =
      [userMessageOf "u1" "q",
       { id := "a1", type := .assistant,
         content := "Nigeria gained independence in 1960.",
         sources := some ["u1", "u2"], isLoading := some false,
         error := none }] := by decide

example :
    sendMessageStreaming demoParse (.ok ["M\nA", "B\nE"]) "q" "u1" "a1"
        ⟨[], false, none⟩ =
      sendMessageNonStreaming
        (.ok ⟨"q", "Nigeria gained independence in 1960.", ["u1", "u2"],
              2, 1, "t0", 1200⟩) "q" "u1" "a1" ⟨[], false, none⟩ := by
  decide

/-! ## Lemmas about the stream consumer -/

/-- Sanity check: a two-read successful stream produces the expected
callback sequence. -/
example :
    askQuestionStream demoParse (.ok ["M\nA", "B\nE"]) =
      [.streamUpdate "" ["u1", "u2"],
       .streamUpdate "Nigeria " ["u1", "u2"],
       .streamUpdate "Nigeria gained independence in 1960." ["u1", "u2"],
       .streamEnd "Nigeria gained independence in 1960."] := by decide

/-- Sanity check: a line failing to parse is skipped without any
callback. -/
example :
    askQuestionStream demoParse (.ok ["data: M\nnot json\nA"]) =
      [.streamUpdate "" ["u1", "u2"],
       .streamUpdate "Nigeria " ["u1", "u2"]] := by decide

/-- The line loop is the event loop run on the effectively parsed
events: skipped lines contribute nothing. -/
theorem processLines_eq_handleEvents (parse : String → Option StreamResponsePart)
    (lines : List String) (st : StreamState) :
    processLines parse lines st = handleEvents (effectiveEvents parse lines) st := by
  induction lines generalizing st with
  | nil => rfl
  | cons line rest ih =>
    simp only [processLines, effectiveEvents, List.filterMap_cons]
    cases hpe : parseEffect parse line with
    | none =>
      simpa only [effectiveEvents] using ih st
    | some p =>
      simp only [handleEvents]
      cases handleParsed st p with
      | next st' calls =>
        have h := ih st'
        simp only [effectiveEvents] at h
        dsimp only
        rw [h]
      | stop calls => rfl

/-- Once the loop has handled an end event it has returned; events
arriving afterwards change nothing. -/
theorem handleEvents_append_of_ended (events post : List StreamResponsePart)
    (st : StreamState) (h : (handleEvents events st).2.2 = true) :
    handleEvents (events ++ post) st = handleEvents events st := by
  induction events generalizing st with
  | nil => simp [handleEvents] at h
  | cons e rest ih =>
    simp only [handleEvents, List.cons_append] at h ⊢
    cases he : handleParsed st e with
    | next st' calls =>
      rw [he] at h
      simp only at h
      dsimp only
      rw [List.append_eq, ih st' h]
    | stop calls => rfl

/-- Structure of the callback trace of the event loop: if an end event
was handled the trace is update calls followed by one `onStreamEnd`;
otherwise it consists of update calls only.  In particular the loop
itself never calls `onError`. -/
theorem handleEvents_trace_shape (events : List StreamResponsePart) (st : StreamState) :
    (if (handleEvents events st).2.2 then
      ∃ pre fa, (handleEvents events st).2.1 = pre ++ [CallbackCall.streamEnd fa] ∧
        ∀ c ∈ pre, isUpdateCall c = true
     else ∀ c ∈ (handleEvents events st).2.1, isUpdateCall c = true) := by
  induction events generalizing st with
  | nil => simp [handleEvents]
  | cons e rest ih =>
    simp only [handleEvents]
    cases e with
    | metadata m =>
      have := ih { st with sources := m.sources }
      simp only [handleParsed]
      by_cases hend : (handleEvents rest { st with sources := m.sources }).2.2
      · rw [if_pos hend] at this
        obtain ⟨pre, fa, hcalls, hpre⟩ := this
        simp only [hend, if_pos, hcalls]
        refine ⟨.streamUpdate st.accumulatedContent m.sources :: pre, fa, by simp, ?_⟩
        intro c hc
        rcases List.mem_cons.mp hc with h | h
        · subst h; rfl
        · exact hpre c h
      · rw [if_neg hend] at this
        simp only [hend, if_neg, if_false]
        intro c hc
        rcases List.mem_cons.mp (by simpa using hc) with h | h
        · subst h; rfl
        · exact this c h
    | chunk ch =>
      have := ih { st with accumulatedContent := st.accumulatedContent ++ ch.content }
      simp only [handleParsed]
      by_cases hend : (handleEvents rest { st with accumulatedContent := st.accumulatedContent ++ ch.content }).2.2
      · rw [if_pos hend] at this
        obtain ⟨pre, fa, hcalls, hpre⟩ := this
        simp only [hend, if_pos, hcalls]
        refine ⟨.streamUpdate (st.accumulatedContent ++ ch.content) st.sources :: pre, fa, by simp, ?_⟩
        intro c hc
        rcases List.mem_cons.mp hc with h | h
        · subst h; rfl
        · exact hpre c h
      · rw [if_neg hend] at this
        simp only [hend, if_neg, if_false]
        intro c hc
        rcases List.mem_cons.mp (by simpa using hc) with h | h
        · subst h; rfl
        · exact this c h
    | endEv e =>
      simp only [handleParsed]
      exact ⟨[], e.full_answer, by simp, by simp⟩

/-- Running the loop over a run of chunk events followed by the end
event: the state accumulates the concatenated contents, the trace is
the in-order update trace followed by one `onStreamEnd` with the end
event's `full_answer`, and the loop stops. -/
theorem handleEvents_chunks_end (cs : List StreamChunk) (e : StreamEnd)
    (st : StreamState) :
    handleEvents (cs.map .chunk ++ [.endEv e]) st =
      (⟨st.accumulatedContent ++ chunkConcat cs, st.sources⟩,
       updateTrace st.accumulatedContent st.sources cs ++ [.streamEnd e.full_answer],
       true) := by
  induction cs generalizing st with
  | nil =>
    simp [handleEvents, handleParsed, chunkConcat, updateTrace]
  | cons c cs ih =>
    simp only [List.map_cons, List.cons_append, handleEvents, handleParsed]
    rw [List.append_eq, ih ⟨st.accumulatedContent ++ c.content, st.sources⟩]
    simp [updateTrace, chunkConcat, String.append_assoc]

/-- The full trace of a well-formed session stream from the initial
loop state: first the metadata update (empty content, the announced
sources), then one update per chunk carrying the prefix concatenations
in order, finally `onStreamEnd` with the end event's answer. -/
theorem handleEvents_wellFormed (m : StreamMetadata) (cs : List StreamChunk)
    (e : StreamEnd) :
    handleEvents (wellFormedEvents m cs e) ⟨"", []⟩ =
      (⟨chunkConcat cs, m.sources⟩,
       .streamUpdate "" m.sources ::
         (updateTrace "" m.sources cs ++ [.streamEnd e.full_answer]),
       true) := by
  simp only [wellFormedEvents, handleEvents, handleParsed]
  rw [handleEvents_chunks_end cs e ⟨"", m.sources⟩]
  simp [String.empty_append]

/-- Every call in an update trace is an `onStreamUpdate`. -/
theorem updateTrace_all_updates (acc : String) (srcs : List String)
    (cs : List StreamChunk) :
    ∀ c ∈ updateTrace acc srcs cs, isUpdateCall c = true := by
  induction cs generalizing acc with
  | nil => intro c hc; simp [updateTrace] at hc
  | cons ch cs ih =>
    intro c hc
    rcases List.mem_cons.mp hc with h | h
    · subst h; rfl
    · exact ih (acc ++ ch.content) c h

/-- An update trace leaves a `receivedSources` value of `srcs` in place
whenever it starts from `srcs`. -/
theorem finalRecv_updateTrace (acc : String) (srcs : List String)
    (cs : List StreamChunk) :
    finalRecv srcs (updateTrace acc srcs cs) = srcs := by
  induction cs generalizing acc with
  | nil => rfl
  | cons ch cs ih => simpa [updateTrace, finalRecv] using ih (acc ++ ch.content)

/-! ## Lemmas about the chat hook -/

/-- Two by-id rewrites compose into one when the inner rewrite keeps
the message id. -/
theorem mapById_mapById (aid : String) (g h : Message → Message)
    (hid : ∀ m, (h m).id = m.id) (l : List Message) :
    mapById aid g (mapById aid h l) = mapById aid (fun m => g (h m)) l := by
  simp only [mapById, List.map_map]
  refine List.map_congr_left ?_
  intro m _
  by_cases hm : m.id = aid
  · simp [Function.comp, hm, hid m]
  · simp [Function.comp, hm]

/-- Replaying a run of `onStreamUpdate` calls followed by one
`onStreamEnd`: the updates are fully overwritten by the end handler, so
the net effect on the hook state is a single by-id rewrite of the
assistant message with the full answer and the last received sources,
plus clearing `isLoading`. -/
theorem runStreamCallbacks_updates_end (aid fa : String)
    (us : List CallbackCall) (hus : ∀ c ∈ us, isUpdateCall c = true) :
    ∀ (st : ChatState) (recv : List String),
    runStreamCallbacks aid (us ++ [.streamEnd fa]) st recv =
      { st with
        messages := mapById aid
          (fun m => { m with content := fa, sources := some (finalRecv recv us),
                             isLoading := some false }) st.messages,
        isLoading := false } := by
  induction us with
  | nil =>
    intro st recv
    simp [runStreamCallbacks, onStreamEndStep, finalRecv]
  | cons c us ih =>
    intro st recv
    cases c with
    | streamUpdate cc s =>
      have hrec := ih (fun c hc => hus c (List.mem_cons_of_mem _ hc))
        (onStreamUpdateStep aid cc st) s
      simp only [List.cons_append, runStreamCallbacks] at hrec ⊢
      rw [List.append_eq, hrec]
      simp only [onStreamUpdateStep, finalRecv]
      refine congrArg (fun ms => ChatState.mk ms false st.apiError) ?_
      rw [mapById_mapById aid
        (fun m => { m with content := fa, sources := some (finalRecv s us),
                           isLoading := some false })
        (fun m => { m with content := cc, isLoading := some true })
        (fun m => rfl)]
    | streamEnd fa' =>
      exact absurd (hus _ (List.mem_cons_self _ _)) (by simp [isUpdateCall])
    | error e =>
      exact absurd (hus _ (List.mem_cons_self _ _)) (by simp [isUpdateCall])

/-- Replaying a run of `onStreamUpdate` calls followed by one
`onError`: the net effect is a single by-id rewrite of the assistant
message with the fixed error notice and the error, plus recording the
error and clearing `isLoading`. -/
theorem runStreamCallbacks_updates_error (aid em : String)
    (us : List CallbackCall) (hus : ∀ c ∈ us, isUpdateCall c = true) :
    ∀ (st : ChatState) (recv : List String),
    runStreamCallbacks aid (us ++ [.error em]) st recv =
      { st with
        messages := mapById aid
          (fun m => { m with content := streamErrorNotice,
                             isLoading := some false, error := some em })
          st.messages,
        apiError := some em,
        isLoading := false } := by
  induction us with
  | nil =>
    intro st recv
    simp [runStreamCallbacks, onErrorStep]
  | cons c us ih =>
    intro st recv
    cases c with
    | streamUpdate cc s =>
      have hrec := ih (fun c hc => hus c (List.mem_cons_of_mem _ hc))
        (onStreamUpdateStep aid cc st) s
      simp only [List.cons_append, runStreamCallbacks] at hrec ⊢
      rw [List.append_eq, hrec]
      simp only [onStreamUpdateStep]
      refine congrArg (fun ms => ChatState.mk ms false (some em)) ?_
      rw [mapById_mapById aid
        (fun m => { m with content := streamErrorNotice,
                           isLoading := some false, error := some em })
        (fun m => { m with content := cc, isLoading := some true })
        (fun m => rfl)]
    | streamEnd fa' =>
      exact absurd (hus _ (List.mem_cons_self _ _)) (by simp [isUpdateCall])
    | error e =>
      exact absurd (hus _ (List.mem_cons_self _ _)) (by simp [isUpdateCall])

/-- Looking up the assistant message after a by-id rewrite of the
message list extended by the fresh user and placeholder messages finds
the rewritten placeholder. -/
theorem find_mapById_appended (aid uid q : String) (g : Message → Message)
    (hg : ∀ m, (g m).id = m.id) (msgs : List Message) (loadMsg : Message)
    (hload : loadMsg.id = aid)
    (hfresh : ∀ m ∈ msgs, m.id ≠ aid) (huid : uid ≠ aid) :
    (mapById aid g (msgs ++ [userMessageOf uid q, loadMsg])).find?
      (fun m => m.id == aid) = some (g loadMsg) := by
  induction msgs with
  | nil =>
    have huser : (userMessageOf uid q).id = uid := rfl
    simp only [List.nil_append, mapById, List.map_cons, List.map_nil]
    rw [if_neg (show ¬(userMessageOf uid q).id = aid from by rw [huser]; exact huid)]
    rw [if_pos hload]
    rw [List.find?_cons_of_neg _ (by simp [huser, huid])]
    rw [List.find?_cons_of_pos _ (by simp [hg, hload])]
  | cons m ms ih =>
    have hm : m.id ≠ aid := hfresh m (List.mem_cons_self _ _)
    simp only [List.cons_append, mapById, List.map_cons] at ih ⊢
    rw [if_neg hm]
    rw [List.find?_cons_of_neg _ (by simp [hm])]
    exact ih (fun x hx => hfresh x (List.mem_cons_of_mem _ hx))

/-! ## Claim theorems -/

/-- C1: for every successful query stream consumed by
`askQuestionStream` — one metadata event, zero or more chunk events and
one end event whose `full_answer` is the in-order concatenation of the
chunk contents — the final assistant message produced by the chat hook
has exactly that concatenation (the full answer text) as its content. -/
theorem C1_final_content_is_chunk_concat
    (parse : String → Option StreamResponsePart) (chunks : List String)
    (m : StreamMetadata) (cs : List StreamChunk) (e : StreamEnd)
    (question uid aid : String) (st : ChatState)
    (hwf : effectiveEvents parse (splitLines chunks) = wellFormedEvents m cs e)
    (hfa : e.full_answer = chunkConcat cs)
    (hload : st.isLoading = false)
    (hfresh : ∀ msg ∈ st.messages, msg.id ≠ aid)
    (huid : uid ≠ aid) :
    (findMessage aid (sendMessageStreaming parse (.ok chunks) question uid aid st)).map
      Message.content = some (chunkConcat cs) := by
  have hcalls : askQuestionStream parse (.ok chunks) =
      (.streamUpdate "" m.sources :: updateTrace "" m.sources cs) ++
        [.streamEnd e.full_answer] := by
    simp only [askQuestionStream]
    rw [processLines_eq_handleEvents, hwf, handleEvents_wellFormed]
    rfl
  have hus : ∀ c ∈ (CallbackCall.streamUpdate "" m.sources ::
      updateTrace "" m.sources cs), isUpdateCall c = true := by
    intro c hc
    rcases List.mem_cons.mp hc with h | h
    · subst h; rfl
    · exact updateTrace_all_updates _ _ _ c h
  have hrecv : finalRecv []
      (CallbackCall.streamUpdate "" m.sources :: updateTrace "" m.sources cs) =
        m.sources := by
    simp only [finalRecv]
    exact finalRecv_updateTrace "" m.sources cs
  unfold sendMessageStreaming
  rw [if_neg (by simp [hload])]
  rw [hcalls, runStreamCallbacks_updates_end aid e.full_answer _ hus]
  unfold findMessage
  dsimp only
  rw [hrecv]
  rw [find_mapById_appended aid uid question
    (fun m1 => { m1 with content := e.full_answer, sources := some m.sources,
                         isLoading := some false })
    (fun m1 => rfl) st.messages (streamingLoadingMessage aid) rfl hfresh huid]
  simp [streamingLoadingMessage, hfa]

/-- Witness for C1 at a concrete two-read stream. -/
theorem C1_witness :
    (findMessage "a-1" (sendMessageStreaming demoParse (.ok ["M\nA", "B\nE"])
        "q" "u-1" "a-1" ⟨[], false, none⟩)).map Message.content =
      some (chunkConcat [⟨"Nigeria "⟩, ⟨"gained independence in 1960."⟩]) :=
  C1_final_content_is_chunk_concat demoParse ["M\nA", "B\nE"]
    ⟨["u1", "u2"], 2, 1⟩ [⟨"Nigeria "⟩, ⟨"gained independence in 1960."⟩]
    ⟨"Nigeria gained independence in 1960.", "t0", "1.2s"⟩
    "q" "u-1" "a-1" ⟨[], false, none⟩
    (by decide) (by decide) rfl (by decide) (by decide)

/-- C2: in a well-formed session event sequence the metadata event is
first (hence precedes every chunk event); events arriving after the end
event are never processed (the consumer's result is unchanged by any
suffix); and the callback trace forwards the chunk events in FIFO
order (one update per chunk, carrying the in-order prefix
concatenations) with the end callback terminal. -/
theorem C2_metadata_first_end_terminal
    (m : StreamMetadata) (cs : List StreamChunk) (e : StreamEnd)
    (st : StreamState) (post : List StreamResponsePart) :
    (wellFormedEvents m cs e).head? = some (.metadata m) ∧
    handleEvents (wellFormedEvents m cs e ++ post) st =
      handleEvents (wellFormedEvents m cs e) st ∧
    (handleEvents (wellFormedEvents m cs e) ⟨"", []⟩).2.1 =
      .streamUpdate "" m.sources ::
        (updateTrace "" m.sources cs ++ [.streamEnd e.full_answer]) := by
  refine ⟨rfl, ?_, ?_⟩
  · apply handleEvents_append_of_ended
    simp only [wellFormedEvents, handleEvents, handleParsed]
    rw [handleEvents_chunks_end]
  · rw [handleEvents_wellFormed]

/-- When the loop has not handled an end event, every callback it made
was an `onStreamUpdate`. -/
theorem processLines_all_updates (parse : String → Option StreamResponsePart)
    (lines : List String) (st : StreamState)
    (h : (processLines parse lines st).2.2 = false) :
    ∀ c ∈ (processLines parse lines st).2.1, isUpdateCall c = true := by
  have hs := handleEvents_trace_shape (effectiveEvents parse lines) st
  rw [← processLines_eq_handleEvents] at hs
  rw [h] at hs
  simpa using hs

/-- C3: a query failing mid-stream (read throws after some chunks were
accumulated, no end event parsed) yields exactly one error signal, as
the last callback, with no chunk update after it; and the hook shows
only the fixed error notice — the partial answer text is discarded. -/
theorem C3_midstream_failure_single_error_signal
    (parse : String → Option StreamResponsePart) (chunks : List String)
    (failMsg question uid aid : String) (st : ChatState)
    (hne : (processLines parse (splitLines chunks) ⟨"", []⟩).2.2 = false)
    (hload : st.isLoading = false)
    (hfresh : ∀ m ∈ st.messages, m.id ≠ aid)
    (huid : uid ≠ aid) :
    ((askQuestionStream parse (.okThenThrow chunks failMsg)).filter isErrorCall).length = 1 ∧
    (askQuestionStream parse (.okThenThrow chunks failMsg)).getLast? =
      some (.error (orNetworkFallback failMsg)) ∧
    (∀ c ∈ (askQuestionStream parse (.okThenThrow chunks failMsg)).dropLast,
      isUpdateCall c = true) ∧
    (findMessage aid (sendMessageStreaming parse (.okThenThrow chunks failMsg)
        question uid aid st)).map Message.content = some streamErrorNotice ∧
    (sendMessageStreaming parse (.okThenThrow chunks failMsg)
        question uid aid st).apiError = some (orNetworkFallback failMsg) := by
  have hcalls : askQuestionStream parse (.okThenThrow chunks failMsg) =
      (processLines parse (splitLines chunks) ⟨"", []⟩).2.1 ++
        [.error (orNetworkFallback failMsg)] := by
    simp [askQuestionStream, hne]
  have hupd := processLines_all_updates parse (splitLines chunks) ⟨"", []⟩ hne
  refine ⟨?_, ?_, ?_, ?_, ?_⟩
  · rw [hcalls, List.filter_append]
    rw [List.filter_eq_nil_iff.mpr (fun c hc => by
      have h1 := hupd c hc
      cases c <;> simp_all [isUpdateCall, isErrorCall])]
    simp [isErrorCall]
  · rw [hcalls]
    exact List.getLast?_concat _
  · rw [hcalls, List.dropLast_concat]
    exact hupd
  · unfold sendMessageStreaming
    rw [if_neg (by simp [hload])]
    rw [hcalls, runStreamCallbacks_updates_error aid (orNetworkFallback failMsg) _ hupd]
    unfold findMessage
    dsimp only
    rw [find_mapById_appended aid uid question
      (fun m1 => { m1 with content := streamErrorNotice, isLoading := some false,
                           error := some (orNetworkFallback failMsg) })
      (fun m1 => rfl) st.messages (streamingLoadingMessage aid) rfl hfresh huid]
    simp
  · unfold sendMessageStreaming
    rw [if_neg (by simp [hload])]
    rw [hcalls, runStreamCallbacks_updates_error aid (orNetworkFallback failMsg) _ hupd]

/-- Witness for C3: after two updates the read throws; one error
callback, and the hook shows the error notice only. -/
theorem C3_witness :
    ((askQuestionStream demoParse (.okThenThrow ["M\nA"] "boom")).filter
      isErrorCall).length = 1 ∧
    (findMessage "a-1" (sendMessageStreaming demoParse (.okThenThrow ["M\nA"] "boom")
        "q" "u-1" "a-1" ⟨[], false, none⟩)).map Message.content =
      some streamErrorNotice :=
  ⟨(C3_midstream_failure_single_error_signal demoParse ["M\nA"] "boom" "q" "u-1" "a-1"
      ⟨[], false, none⟩ (by decide) rfl (by decide) (by decide)).1,
   (C3_midstream_failure_single_error_signal demoParse ["M\nA"] "boom" "q" "u-1" "a-1"
      ⟨[], false, none⟩ (by decide) rfl (by decide) (by decide)).2.2.2.1⟩

/-- C4: fed the equivalent well-formed event stream (same sources in
the metadata event, same answer in the end event), the streaming
`sendMessage` and the non-streaming `sendMessage` produce the same
final assistant message content and the same final sources list — the
answer and sources of the non-streaming response. -/
theorem C4_streaming_agrees_with_nonstreaming
    (parse : String → Option StreamResponsePart) (chunks : List String)
    (m : StreamMetadata) (cs : List StreamChunk) (e : StreamEnd)
    (r : QuestionResponse) (question uid aid : String) (st : ChatState)
    (hwf : effectiveEvents parse (splitLines chunks) = wellFormedEvents m cs e)
    (hsrc : m.sources = r.sources)
    (hans : e.full_answer = r.answer)
    (hload : st.isLoading = false)
    (hfresh : ∀ msg ∈ st.messages, msg.id ≠ aid)
    (huid : uid ≠ aid) :
    (findMessage aid (sendMessageStreaming parse (.ok chunks) question uid aid st)).map
        Message.content =
      (findMessage aid (sendMessageNonStreaming (.ok r) question uid aid st)).map
        Message.content ∧
    (findMessage aid (sendMessageStreaming parse (.ok chunks) question uid aid st)).map
        Message.sources =
      (findMessage aid (sendMessageNonStreaming (.ok r) question uid aid st)).map
        Message.sources ∧
    (findMessage aid (sendMessageNonStreaming (.ok r) question uid aid st)).map
        Message.content = some r.answer ∧
    (findMessage aid (sendMessageNonStreaming (.ok r) question uid aid st)).map
        Message.sources = some (some r.sources) := by
  have hcalls : askQuestionStream parse (.ok chunks) =
      (.streamUpdate "" m.sources :: updateTrace "" m.sources cs) ++
        [.streamEnd e.full_answer] := by
    simp only [askQuestionStream]
    rw [processLines_eq_handleEvents, hwf, handleEvents_wellFormed]
    rfl
  have hus : ∀ c ∈ (CallbackCall.streamUpdate "" m.sources ::
      updateTrace "" m.sources cs), isUpdateCall c = true := by
    intro c hc
    rcases List.mem_cons.mp hc with h | h
    · subst h; rfl
    · exact updateTrace_all_updates _ _ _ c h
  have hrecv : finalRecv []
      (CallbackCall.streamUpdate "" m.sources :: updateTrace "" m.sources cs) =
        m.sources := by
    simp only [finalRecv]
    exact finalRecv_updateTrace "" m.sources cs
  have hstream : findMessage aid
      (sendMessageStreaming parse (.ok chunks) question uid aid st) =
      some { streamingLoadingMessage aid with content := e.full_answer, sources := some m.sources, isLoading := some false } := by
    unfold sendMessageStreaming
    rw [if_neg (by simp [hload])]
    rw [hcalls, runStreamCallbacks_updates_end aid e.full_answer _ hus]
    unfold findMessage
    dsimp only
    rw [hrecv]
    rw [find_mapById_appended aid uid question
      (fun m1 => { m1 with content := e.full_answer, sources := some m.sources,
                           isLoading := some false })
      (fun m1 => rfl) st.messages (streamingLoadingMessage aid) rfl hfresh huid]
  have hnon : findMessage aid
      (sendMessageNonStreaming (.ok r) question uid aid st) =
      some { nonStreamingLoadingMessage aid with content := r.answer, sources := some r.sources, isLoading := some false } := by
    unfold sendMessageNonStreaming askQuestion
    rw [if_neg (by simp [hload])]
    dsimp only
    unfold findMessage
    rw [find_mapById_appended aid uid question
      (fun m1 => { m1 with content := r.answer, sources := some r.sources,
                           isLoading := some false })
      (fun m1 => rfl) st.messages (nonStreamingLoadingMessage aid) rfl hfresh huid]
  rw [hstream, hnon]
  refine ⟨?_, ?_, ?_, ?_⟩ <;>
    simp [streamingLoadingMessage, nonStreamingLoadingMessage, hans, hsrc]

/-- Witness for C4 at a concrete stream and its equivalent response. -/
theorem C4_witness :
    (findMessage "a-1" (sendMessageStreaming demoParse (.ok ["M\nA", "B\nE"])
        "q" "u-1" "a-1" ⟨[], false, none⟩)).map Message.content =
      (findMessage "a-1" (sendMessageNonStreaming
        (.ok ⟨"q", "Nigeria gained independence in 1960.", ["u1", "u2"], 2, 1,
              "t0", 1200⟩) "q" "u-1" "a-1" ⟨[], false, none⟩)).map Message.content :=
  (C4_streaming_agrees_with_nonstreaming demoParse ["M\nA", "B\nE"]
    ⟨["u1", "u2"], 2, 1⟩ [⟨"Nigeria "⟩, ⟨"gained independence in 1960."⟩]
    ⟨"Nigeria gained independence in 1960.", "t0", "1.2s"⟩
    ⟨"q", "Nigeria gained independence in 1960.", ["u1", "u2"], 2, 1, "t0", 1200⟩
    "q" "u-1" "a-1" ⟨[], false, none⟩
    (by decide) rfl rfl rfl (by decide) (by decide)).1

/-- C5: the non-streaming query response is a single object carrying
exactly the fields question, answer, sources, relevant_chunks_found,
context_chunks_used, timestamp and response_time_ms, as declared by the
client's `QuestionResponse` type; `askQuestion` returns the parsed
response data unchanged. -/
theorem C5_question_response_fields (r : QuestionResponse) :
    askQuestion (.ok r) = .ok r ∧
    r = { question := r.question, answer := r.answer, sources := r.sources, relevant_chunks_found := r.relevant_chunks_found, context_chunks_used := r.context_chunks_used, timestamp := r.timestamp, response_time_ms := r.response_time_ms } :=
  ⟨rfl, rfl⟩

/-- Content invariant of the update trace, generalised over the start
state: the `k`-th callback, when it is an `onStreamUpdate`, carries the
start content extended by the concatenation of the chunk events among
the first `k + 1` events. -/
theorem handleEvents_update_content (events : List StreamResponsePart)
    (st : StreamState) (k : Nat) (c : String) (s : List String)
    (h : ((handleEvents events st).2.1)[k]? = some (.streamUpdate c s)) :
    c = st.accumulatedContent ++ chunkConcat (chunksOf (events.take (k + 1))) := by
  induction events generalizing st k with
  | nil => simp [handleEvents] at h
  | cons e rest ih =>
    cases e with
    | metadata m =>
      simp only [handleEvents, handleParsed, List.singleton_append] at h
      cases k with
      | zero =>
        simp only [List.getElem?_cons_zero, Option.some_inj] at h
        cases h
        simp [chunksOf, chunkConcat, String.append_empty]
      | succ k =>
        simp only [List.getElem?_cons_succ] at h
        have := ih { st with sources := m.sources } k h
        simpa [chunksOf, List.take_succ_cons] using this
    | chunk ch =>
      simp only [handleEvents, handleParsed, List.singleton_append] at h
      cases k with
      | zero =>
        simp only [List.getElem?_cons_zero, Option.some_inj] at h
        cases h
        simp [chunksOf, chunkConcat, String.append_empty]
      | succ k =>
        simp only [List.getElem?_cons_succ] at h
        have := ih { st with accumulatedContent := st.accumulatedContent ++ ch.content } k h
        simpa [chunksOf, List.take_succ_cons, chunkConcat, String.append_assoc] using this
    | endEv ev =>
      simp only [handleEvents, handleParsed] at h
      cases k with
      | zero => simp at h
      | succ k => simp at h

/-- C6: at every point during stream consumption, the content value
delivered to `onStreamUpdate` equals the in-order concatenation of the
`content` fields of the chunk events processed so far (chunk events are
forwarded incrementally, in order, with no reordering or buffering). -/
theorem C6_update_content_is_prefix_concat (events : List StreamResponsePart)
    (k : Nat) (c : String) (s : List String)
    (h : ((handleEvents events ⟨"", []⟩).2.1)[k]? = some (.streamUpdate c s)) :
    c = chunkConcat (chunksOf (events.take (k + 1))) := by
  have hg := handleEvents_update_content events ⟨"", []⟩ k c s h
  rwa [String.empty_append] at hg

/-- Witness for C6 at the third callback of a concrete stream. -/
theorem C6_witness :
    ((handleEvents [StreamResponsePart.metadata ⟨["u1"], 1, 1⟩,
        .chunk ⟨"Nigeria "⟩, .chunk ⟨"gained independence in 1960."⟩,
        .endEv ⟨"x", "t", "g"⟩] ⟨"", []⟩).2.1)[2]? =
      some (.streamUpdate "Nigeria gained independence in 1960." ["u1"]) ∧
    "Nigeria gained independence in 1960." =
      chunkConcat (chunksOf (([StreamResponsePart.metadata ⟨["u1"], 1, 1⟩,
        .chunk ⟨"Nigeria "⟩, .chunk ⟨"gained independence in 1960."⟩,
        .endEv ⟨"x", "t", "g"⟩] : List StreamResponsePart).take 3)) :=
  ⟨by decide,
   C6_update_content_is_prefix_concat [StreamResponsePart.metadata ⟨["u1"], 1, 1⟩,
      .chunk ⟨"Nigeria "⟩, .chunk ⟨"gained independence in 1960."⟩,
      .endEv ⟨"x", "t", "g"⟩] 2 "Nigeria gained independence in 1960." ["u1"]
      (by decide)⟩

/-- C7 counterexample: the streaming query request is issued by `fetch`
with no timeout and no abort signal, so it carries no client-side
wall-clock budget — the claim fails for the streaming path. -/
theorem C7_counterexample_stream_has_no_timeout :
    askStreamFetchInit.timeout.isSome = false := rfl

/-- C7 amended: the axios clients carry request timeouts (345000 ms on
`apiClient`, which serves the non-streaming `/ask`, and 10000 ms on
`axiosApi`), but the streaming `askQuestionStream` fetch request
carries none, so only the axios-issued requests are bounded by a
client-side wall-clock budget. -/
theorem C7_axios_timeouts_fetch_none :
    apiClient.timeout = some 345000 ∧ axiosApi.timeout = some 10000 ∧
    askStreamFetchInit.timeout = none :=
  ⟨rfl, rfl, rfl⟩

/-- An update callback is not terminal. -/
theorem isTerminal_eq_false_of_update (c : CallbackCall)
    (h : isUpdateCall c = true) : isTerminal c = false := by
  cases c <;> simp_all [isUpdateCall, isTerminal]

/-- A callback list made of update calls followed by one terminal call
has exactly that terminal call as its unique terminal element, in last
position. -/
theorem terminal_structure_of_concat (calls : List CallbackCall)
    (t : CallbackCall) (pre : List CallbackCall)
    (hc : calls = pre ++ [t]) (hpre : ∀ c ∈ pre, isUpdateCall c = true)
    (ht : isTerminal t = true) :
    calls.filter isTerminal = [t] ∧
    ∀ c ∈ calls, isTerminal c = true → calls.getLast? = some c := by
  subst hc
  constructor
  · rw [List.filter_append]
    rw [List.filter_eq_nil_iff.mpr (fun c hcm => by
      rw [isTerminal_eq_false_of_update c (hpre c hcm)]
      simp)]
    simp [ht]
  · intro c hcm hct
    rcases List.mem_append.mp hcm with hpm | hlm
    · exact absurd hct (by rw [isTerminal_eq_false_of_update c (hpre c hpm)]; simp)
    · rcases List.mem_singleton.mp hlm with rfl
      exact List.getLast?_concat _

/-- Structure of the line-loop trace when an end event was handled:
update calls then one `onStreamEnd`. -/
theorem processLines_shape_ended (parse : String → Option StreamResponsePart)
    (lines : List String) (st : StreamState)
    (h : (processLines parse lines st).2.2 = true) :
    ∃ pre fa, (processLines parse lines st).2.1 =
        pre ++ [CallbackCall.streamEnd fa] ∧
      ∀ c ∈ pre, isUpdateCall c = true := by
  have hs := handleEvents_trace_shape (effectiveEvents parse lines) st
  rw [← processLines_eq_handleEvents] at hs
  rw [h] at hs
  simpa using hs

/-- C8 counterexample: when the byte stream is exhausted (reader done)
without an end event having been parsed, `askQuestionStream` invokes
chunk updates but no terminal callback at all — neither `onStreamEnd`
nor `onError` — refuting the claim that exactly one is always invoked. -/
theorem C8_counterexample_no_terminal_on_exhaustion :
    askQuestionStream demoParse (.ok ["M\nA"]) ≠ [] ∧
    (askQuestionStream demoParse (.ok ["M\nA"])).filter isTerminal = [] := by
  constructor
  · decide
  · decide

/-- C8 amended: for every call, at most one terminal callback is
invoked, and when one is invoked it is the last callback; when the byte
stream is exhausted without a parsed end event and without an
exception, no terminal callback is invoked at all. -/
theorem C8_at_most_one_terminal_and_last
    (parse : String → Option StreamResponsePart) (outcome : FetchOutcome) :
    ((askQuestionStream parse outcome).filter isTerminal).length ≤ 1 ∧
    (∀ c ∈ askQuestionStream parse outcome, isTerminal c = true →
      (askQuestionStream parse outcome).getLast? = some c) ∧
    (∀ chunks, outcome = .ok chunks →
      (processLines parse (splitLines chunks) ⟨"", []⟩).2.2 = false →
      (askQuestionStream parse outcome).filter isTerminal = []) := by
  cases outcome with
  | fetchReject msg =>
    refine ⟨by simp [askQuestionStream, isTerminal], ?_, ?_⟩
    · intro c hcm hct
      rcases List.mem_singleton.mp hcm with rfl
      rfl
    · intro chunks hc
      cases hc
  | httpError msg =>
    refine ⟨by simp [askQuestionStream, isTerminal], ?_, ?_⟩
    · intro c hcm hct
      rcases List.mem_singleton.mp hcm with rfl
      rfl
    · intro chunks hc
      cases hc
  | noBody =>
    refine ⟨by simp [askQuestionStream, isTerminal], ?_, ?_⟩
    · intro c hcm hct
      rcases List.mem_singleton.mp hcm with rfl
      rfl
    · intro chunks hc
      cases hc
  | ok chunks =>
    have hq : askQuestionStream parse (.ok chunks) =
        (processLines parse (splitLines chunks) ⟨"", []⟩).2.1 := rfl
    by_cases hend : (processLines parse (splitLines chunks) ⟨"", []⟩).2.2 = true
    · obtain ⟨pre, fa, hcalls, hpre⟩ := processLines_shape_ended parse _ _ hend
      have hts := terminal_structure_of_concat
        (askQuestionStream parse (.ok chunks)) (.streamEnd fa) pre
        (by rw [hq, hcalls]) hpre rfl
      refine ⟨by rw [hts.1]; simp, hts.2, ?_⟩
      · intro chunks2 hc
        cases hc
        intro hne
        rw [hend] at hne
        cases hne
    · have hne : (processLines parse (splitLines chunks) ⟨"", []⟩).2.2 = false := by
        revert hend
        cases (processLines parse (splitLines chunks) ⟨"", []⟩).2.2 <;> simp
      have hupd := processLines_all_updates parse (splitLines chunks) ⟨"", []⟩ hne
      have hnil : (askQuestionStream parse (.ok chunks)).filter isTerminal = [] := by
        rw [hq]
        exact List.filter_eq_nil_iff.mpr (fun c hcm => by
          rw [isTerminal_eq_false_of_update c (hupd c hcm)]
          simp)
      refine ⟨by rw [hnil]; simp, ?_, ?_⟩
      · intro c hcm hct
        rw [hq] at hcm
        exact absurd hct
          (by rw [isTerminal_eq_false_of_update c (hupd c hcm)]; simp)
      · intro chunks2 hc
        cases hc
        intro _
        exact hnil
  | okThenThrow chunks msg =>
    by_cases hend : (processLines parse (splitLines chunks) ⟨"", []⟩).2.2 = true
    · have hq : askQuestionStream parse (.okThenThrow chunks msg) =
          (processLines parse (splitLines chunks) ⟨"", []⟩).2.1 := by
        simp [askQuestionStream, hend]
      obtain ⟨pre, fa, hcalls, hpre⟩ := processLines_shape_ended parse _ _ hend
      have hts := terminal_structure_of_concat
        (askQuestionStream parse (.okThenThrow chunks msg)) (.streamEnd fa) pre
        (by rw [hq, hcalls]) hpre rfl
      refine ⟨by rw [hts.1]; simp, hts.2, ?_⟩
      · intro chunks2 hc
        cases hc
    · have hne : (processLines parse (splitLines chunks) ⟨"", []⟩).2.2 = false := by
        revert hend
        cases (processLines parse (splitLines chunks) ⟨"", []⟩).2.2 <;> simp
      have hq : askQuestionStream parse (.okThenThrow chunks msg) =
          (processLines parse (splitLines chunks) ⟨"", []⟩).2.1 ++
            [.error (orNetworkFallback msg)] := by
        simp [askQuestionStream, hne]
      have hupd := processLines_all_updates parse (splitLines chunks) ⟨"", []⟩ hne
      have hts := terminal_structure_of_concat _ (.error (orNetworkFallback msg)) _
        hq hupd rfl
      refine ⟨by rw [hts.1]; simp, hts.2, ?_⟩
      · intro chunks2 hc
        cases hc

/-- Witness for C8 at a concrete completed stream: one terminal
callback, in last position. -/
theorem C8_witness :
    ((askQuestionStream demoParse (.ok ["M\nE"])).filter isTerminal).length ≤ 1 ∧
    (askQuestionStream demoParse (.ok ["M\nE"])).getLast? =
      some (.streamEnd "Nigeria gained independence in 1960.") :=
  ⟨(C8_at_most_one_terminal_and_last demoParse (.ok ["M\nE"])).1,
   (C8_at_most_one_terminal_and_last demoParse (.ok ["M\nE"])).2.1
     (.streamEnd "Nigeria gained independence in 1960.") (by decide) rfl⟩

/-- C9: a `sendMessage` call made while `isLoading` is true returns
immediately with the hook state entirely unchanged — no message
appended, no request consumed, `isLoading` and `apiError` untouched —
in both the streaming and the non-streaming variant. -/
theorem C9_send_while_loading_is_noop
    (parse : String → Option StreamResponsePart) (outcome : FetchOutcome)
    (resp : Except String QuestionResponse)
    (question uid aid : String) (st : ChatState)
    (h : st.isLoading = true) :
    sendMessageStreaming parse outcome question uid aid st = st ∧
    sendMessageNonStreaming resp question uid aid st = st := by
  constructor
  · simp [sendMessageStreaming, h]
  · simp [sendMessageNonStreaming, h]

/-- Witness for C9 on a loading state. -/
theorem C9_witness :
    sendMessageStreaming demoParse (.ok ["M\nE"]) "q" "u-1" "a-1"
        ⟨[], true, none⟩ = ⟨[], true, none⟩ ∧
    sendMessageNonStreaming (.error "down") "q" "u-1" "a-1"
        ⟨[], true, none⟩ = ⟨[], true, none⟩ :=
  C9_send_while_loading_is_noop demoParse (.ok ["M\nE"]) (.error "down")
    "q" "u-1" "a-1" ⟨[], true, none⟩ rfl

/-- The line loop never invokes `onError` (read failures are signalled
by the surrounding catch, not by the loop). -/
theorem processLines_no_error (parse : String → Option StreamResponsePart)
    (lines : List String) (st : StreamState) :
    ∀ c ∈ (processLines parse lines st).2.1, isErrorCall c = false := by
  intro c hcm
  have hs := handleEvents_trace_shape (effectiveEvents parse lines) st
  rw [← processLines_eq_handleEvents] at hs
  by_cases hend : (processLines parse lines st).2.2 = true
  · rw [hend] at hs
    simp only [if_true] at hs
    obtain ⟨pre, fa, hcalls, hpre⟩ := hs
    rw [hcalls] at hcm
    rcases List.mem_append.mp hcm with hpm | hlm
    · have := hpre c hpm
      cases c <;> simp_all [isUpdateCall, isErrorCall]
    · rcases List.mem_singleton.mp hlm with rfl
      rfl
  · have hne : (processLines parse lines st).2.2 = false := by
      revert hend
      cases (processLines parse lines st).2.2 <;> simp
    rw [hne] at hs
    simp only [Bool.false_eq_true, if_false] at hs
    have := hs c hcm
    cases c <;> simp_all [isUpdateCall, isErrorCall]

/-- C10: a received line that is not valid JSON (after removal of an
optional leading `data: ` prefix) is skipped: the accumulated content
and sources are unchanged, processing continues with the subsequent
lines exactly as if the line were absent, and `onError` is never
invoked on account of it. -/
theorem C10_invalid_json_line_skipped
    (parse : String → Option StreamResponsePart) (line : String)
    (rest : List String) (st : StreamState)
    (hbad : parse (stripDataTag line) = none) :
    processLines parse (line :: rest) st = processLines parse rest st ∧
    ∀ c ∈ (processLines parse (line :: rest) st).2.1, isErrorCall c = false := by
  have hskip : parseEffect parse line = none := by
    unfold parseEffect
    dsimp only
    split
    · rfl
    · exact hbad
  constructor
  · rw [processLines, hskip]
  · exact processLines_no_error parse (line :: rest) st

/-- Witness for C10 on a concrete malformed line. -/
theorem C10_witness :
    processLines demoParse ["not json", "A"] ⟨"", []⟩ =
      processLines demoParse ["A"] ⟨"", []⟩ :=
  (C10_invalid_json_line_skipped demoParse "not json" ["A"] ⟨"", []⟩ (by decide)).1
